import Mathlib

/-!
Shallow embedding of the geometry and motor-transport core of the IEEE
P1906.1 reference code (microtubule network generation, point/segment
geometry, and the molecular-motor state machine), together with proofs
settling the frozen claims about it.

Conventions of the embedding:
* C doubles are modelled by an arbitrary linear ordered field K; claim
  theorems instantiate K with the rationals where the modelled code is
  pure field arithmetic and with the reals where it calls sqrt/sin/cos.
* A gsl_vector of length 3 is a Pt, a gsl_vector of length 6 (a segment:
  two end points) is a Seg, a tube matrix (n x 6 gsl_matrix) is a List Seg,
  and a list of positions (n x 3 gsl_matrix or vector of P1906MOL_Pos) is
  a List Pt.
* The GSL random generator gsl_rng is modelled as an infinite stream of
  draws (a function from the draw counter to K) plus the current counter;
  gsl_ran_gaussian(r, sigma) consumes one draw and returns sigma times the
  draw (GSL's sampler scaled to standard deviation sigma), and
  gsl_rng_uniform(r) consumes one draw and returns it.
* The irrational primitives sqrt, sin, cos used by the C code are passed
  in as function arguments (instantiated with Real.sqrt, Real.sin,
  Real.cos in the theorems), keeping every definition computable.
-/

set_option linter.unusedSectionVars false

namespace P1906

/-- A 3D point: a gsl_vector of length three holding x, y, z. -/
structure Pt (K : Type) where
  x : K
  y : K
  z : K
deriving DecidableEq

/-- A segment: a gsl_vector of length six holding both end points
(x1, y1, z1, x2, y2, z2). -/
structure Seg (K : Type) where
  x1 : K
  y1 : K
  z1 : K
  x2 : K
  y2 : K
  z2 : K
deriving DecidableEq

variable {K : Type} [LinearOrderedField K]

/-- First end point (components 0, 1, 2) of a segment. -/
def segP1 (s : Seg K) : Pt K := ⟨s.x1, s.y1, s.z1⟩

/-- Second end point (components 3, 4, 5) of a segment. -/
def segP2 (s : Seg K) : Pt K := ⟨s.x2, s.y2, s.z2⟩

/-- Componentwise difference of two points, as gsl_vector_sub leaves it in
its first operand. -/
def ptSub (a b : Pt K) : Pt K := ⟨a.x - b.x, a.y - b.y, a.z - b.z⟩

/-- P1906MOL_MicrotubulesField::cross_product: the standard 3D cross
product of u and v, written into product. -/
def cross_product (u v : Pt K) : Pt K :=
  ⟨u.y * v.z - u.z * v.y,
   u.z * v.x - u.x * v.z,
   u.x * v.y - u.y * v.x⟩

/-- gsl_blas_dasum: the sum of the absolute values of the components
(the L1 norm), which is what the reference code calls on the cross
product and on the baseline inside distance. -/
def dasum (v : Pt K) : K := |v.x| + |v.y| + |v.z|

/-- P1906MOL_MicrotubulesField::distance, case of a 6-component argument
(a segment): res1 = pt - pt1, res2 = pt - pt2, res = res1 x res2, then
the returned value is dasum res / dasum (pt2 - pt1). Note the code uses
gsl_blas_dasum (L1 norm), not gsl_blas_dnrm2 (Euclidean norm), on both
the cross product and the baseline. -/
def distanceSeg (pt : Pt K) (segment : Seg K) : K :=
  let pt1 := segP1 segment
  let pt2 := segP2 segment
  let res1 := ptSub pt pt1
  let res2 := ptSub pt pt2
  let res := cross_product res1 res2
  let base := ptSub pt2 pt1
  dasum res / dasum base

/-- gsl_blas_dnrm2: the Euclidean norm, with the square root supplied as
a function argument (Real.sqrt in the theorems). -/
def dnrm2 (sqrtK : K → K) (v : Pt K) : K :=
  sqrtK (v.x * v.x + v.y * v.y + v.z * v.z)

/-- P1906MOL_MicrotubulesField::distance, case of a 3-component argument,
and P1906MOL_MicrotubulesField::distanceP: the Euclidean distance between
two points. -/
def distanceP (sqrtK : K → K) (pt1 pt2 : Pt K) : K :=
  dnrm2 sqrtK (ptSub pt1 pt2)

/-- Spec-side definition, following the specification's words for the
point-to-line distance: the Euclidean magnitude of (pt - p1) x (pt - p2)
divided by the Euclidean length of p2 - p1 (square root supplied as an
argument, Real.sqrt in the theorems). Used only to compare against the
code's distanceSeg. -/
def distanceSegEuclidSpec (sqrtK : K → K) (pt : Pt K) (segment : Seg K) : K :=
  let pt1 := segP1 segment
  let pt2 := segP2 segment
  let res := cross_product (ptSub pt pt1) (ptSub pt pt2)
  let base := ptSub pt2 pt1
  dnrm2 sqrtK res / dnrm2 sqrtK base

/-- The value distance computes for a segment, with the IEEE-754 error
path of the double division made explicit: when the baseline's L1 norm
dasum (pt2 - pt1) is 0 — exactly when the segment's end points coincide,
in which case the cross product is the zero vector too — the C quotient
is 0/0 = NaN, and every comparison made on it afterwards is false; that
outcome is modelled as none. Otherwise the quotient is an ordinary
number, distanceSeg. -/
def distanceSegChecked (pt : Pt K) (segment : Seg K) : Option K :=
  if dasum (ptSub (segP2 segment) (segP1 segment)) = 0 then none
  else some (distanceSeg pt segment)

/-- The accumulator step of P1906MOL_MicrotubulesField::findNearestTube:
the running pair (closestSegment, shortestDistance), where the none
accumulator models the initial state (closestSegment = -1,
shortestDistance = GSL_POSINF). The update condition in the loop is
(d < shortestDistance) && (d <= radius); against GSL_POSINF the first
conjunct always holds, and when d is the NaN of a degenerate row
(distanceSegChecked = none) both conjuncts are false, so the
accumulator is left unchanged. -/
def fntGo (pt : Pt K) (radius : K) :
    List (Seg K) → ℕ → Option (ℕ × K) → Option (ℕ × K)
  | [], _, acc => acc
  | s :: rest, i, acc =>
    let acc' :=
      match distanceSegChecked pt s, acc with
      | none, _ => acc
      | some d, none => if d ≤ radius then some (i, d) else none
      | some d, some (j, sd) =>
          if d < sd ∧ d ≤ radius then some (i, d) else some (j, sd)
    fntGo pt radius rest (i + 1) acc'

/-- P1906MOL_MicrotubulesField::findNearestTube: linear scan of all rows
of the tube matrix, keeping the segment of least distance among those
with distance at most radius; rows whose distance is NaN (degenerate
segments, see distanceSegChecked) never pass the comparisons; returns
the row index, or -1 when no row qualified (closestSegment keeps its
initial value, a size_t -1 returned through int). -/
def findNearestTube (pt : Pt K) (tubeMatrix : List (Seg K)) (radius : K) : Int :=
  match fntGo pt radius tubeMatrix 0 none with
  | none => -1
  | some (i, _) => (i : Int)

/-- The 6-component destination_volume vector of P1906MOL_Motor:
components 0-2 come from the lower-left corner, components 3-5 from the
upper-right corner. -/
structure DestVol (K : Type) where
  v0 : K
  v1 : K
  v2 : K
  v3 : K
  v4 : K
  v5 : K
deriving DecidableEq

/-- P1906MOL_Motor::setDestinationVolume: copies the lower-left corner
into components 0-2 and the upper-right corner into components 3-5. -/
def setDestinationVolume (lower_left upper_right : Pt K) : DestVol K :=
  ⟨lower_left.x, lower_left.y, lower_left.z,
   upper_right.x, upper_right.y, upper_right.z⟩

/-- P1906MOL_Motor::inDestination: the exact six comparisons of the code
(note components 1 and 2 of destination_volume are compared with <=
against the current y and z, not >=). -/
def inDestination (current_location : Pt K) (destination_volume : DestVol K) : Bool :=
  decide ((current_location.x ≥ destination_volume.v0) ∧
          (current_location.x ≤ destination_volume.v3) ∧
          (current_location.y ≤ destination_volume.v1) ∧
          (current_location.y ≤ destination_volume.v4) ∧
          (current_location.z ≤ destination_volume.v2) ∧
          (current_location.z ≤ destination_volume.v5))

/-- Spec-side definition, following the specification's words: the
current position satisfies all six box-face inequalities of the
axis-aligned destination box with corners lower_left and upper_right.
Used only to compare against the code's inDestination. -/
def inDestinationBoxSpec (loc lower_left upper_right : Pt K) : Bool :=
  decide ((lower_left.x ≤ loc.x) ∧ (loc.x ≤ upper_right.x) ∧
          (lower_left.y ≤ loc.y) ∧ (loc.y ≤ upper_right.y) ∧
          (lower_left.z ≤ loc.z) ∧ (loc.z ≤ upper_right.z))

/-- P1906MOL_MicrotubulesField::isPointOverlap: the code loads sx2, sy2,
sz2 from components 0, 1, 2 of the segment (the same components as sx1,
sy1, sz1), builds the direction vector dV from their differences, and
compares the parametric slopes. The loads of components 0, 1, 2 for both
end points are reproduced here exactly as in the source. -/
def isPointOverlap (pt : Pt K) (segment : Seg K) : Bool :=
  let px := pt.x
  let py := pt.y
  let pz := pt.z
  let sx1 := segment.x1
  let sy1 := segment.y1
  let sz1 := segment.z1
  let sx2 := segment.x1
  let sy2 := segment.y1
  let sz2 := segment.z1
  let dV : Pt K := ⟨sx2 - sx1, sy2 - sy1, sz2 - sz1⟩
  decide ((((px - sx1) / dV.x) = ((py - sy1) / dV.y)) ∧
          (((py - sy1) / dV.y) = ((pz - sz1) / dV.z)))

/-- The direction vector dV computed inside isPointOverlap, as its own
definition: slopes built from the loaded components, where the second
end point is loaded from components 0, 1, 2 as in the source. -/
def isPointOverlapDV (segment : Seg K) : Pt K :=
  let sx1 := segment.x1
  let sy1 := segment.y1
  let sz1 := segment.z1
  let sx2 := segment.x1
  let sy2 := segment.y1
  let sz2 := segment.z1
  ⟨sx2 - sx1, sy2 - sy1, sz2 - sz1⟩

/-- The tubeCharacteristcs_t struct (tube-characteristics.h): doubles are
K, the size_t counts are naturals. -/
structure TubeChars (K : Type) where
  volume : K
  mean_tube_length : K
  mean_intra_tube_angle : K
  mean_inter_tube_angle : K
  mean_tube_density : K
  segLength : K
  numSegments : ℕ
  persistenceLength : K
  segPerTube : ℕ
  numTubes : ℕ
  se : K

variable [FloorRing K]

/-- P1906MOL_MicrotubulesField::setTubeVolume: stores the volume and
nothing else (it does not recompute numSegments). -/
def setTubeVolume (ts : TubeChars K) (volume : K) : TubeChars K :=
  { ts with volume := volume }

/-- P1906MOL_MicrotubulesField::setTubeLength: stores the mean tube
length and recomputes segLength = mean_tube_length / 5. -/
def setTubeLength (ts : TubeChars K) (mean_tube_length : K) : TubeChars K :=
  { ts with mean_tube_length := mean_tube_length,
            segLength := mean_tube_length / 5 }

/-- P1906MOL_MicrotubulesField::setTubeIntraAngle. -/
def setTubeIntraAngle (ts : TubeChars K) (mean_intra_tube_angle : K) : TubeChars K :=
  { ts with mean_intra_tube_angle := mean_intra_tube_angle }

/-- P1906MOL_MicrotubulesField::setTubeInterAngle. -/
def setTubeInterAngle (ts : TubeChars K) (mean_inter_tube_angle : K) : TubeChars K :=
  { ts with mean_inter_tube_angle := mean_inter_tube_angle }

/-- P1906MOL_MicrotubulesField::setTubeDensity: stores the density and
recomputes numSegments = mean_tube_density * volume (the double product
truncated into a size_t; for non-negative products this is the floor).
It does not recompute numTubes. -/
def setTubeDensity (ts : TubeChars K) (mean_tube_density : K) : TubeChars K :=
  { ts with mean_tube_density := mean_tube_density,
            numSegments := (⌊mean_tube_density * ts.volume⌋).toNat }

/-- P1906MOL_MicrotubulesField::setTubePersistenceLength: stores the
persistence length only. -/
def setTubePersistenceLength (ts : TubeChars K) (persistenceLength : K) : TubeChars K :=
  { ts with persistenceLength := persistenceLength }

/-- P1906MOL_MicrotubulesField::setTubeSegments: stores segPerTube and
recomputes numTubes = floor(numSegments / segPerTube) (a size_t division,
i.e. natural division). -/
def setTubeSegments (ts : TubeChars K) (segPerTube : ℕ) : TubeChars K :=
  { ts with segPerTube := segPerTube,
            numTubes := ts.numSegments / segPerTube }

/-- The bounding-box acceptance test of getOverlap3D, exactly the twelve
comparisons of its if condition: min(a, b) <= pt and max(a, b) >= pt on
every axis for the probe segment a-b, and likewise for the candidate
segment c-d. -/
def overlapGuard (a c : Seg K) (pt : Pt K) : Prop :=
  min a.x1 a.x2 ≤ pt.x ∧
  min a.y1 a.y2 ≤ pt.y ∧
  min a.z1 a.z2 ≤ pt.z ∧
  max a.x1 a.x2 ≥ pt.x ∧
  max a.y1 a.y2 ≥ pt.y ∧
  max a.z1 a.z2 ≥ pt.z ∧
  min c.x1 c.x2 ≤ pt.x ∧
  min c.y1 c.y2 ≤ pt.y ∧
  min c.z1 c.z2 ≤ pt.z ∧
  max c.x1 c.x2 ≥ pt.x ∧
  max c.y1 c.y2 ≥ pt.y ∧
  max c.z1 c.z2 ≥ pt.z

instance (a c : Seg K) (pt : Pt K) : Decidable (overlapGuard a c pt) := by
  unfold overlapGuard
  infer_instance

/-- The default segment used where the C code would read a row out of
bounds of a gsl_matrix. -/
def seg0 : Seg K := ⟨0, 0, 0, 0, 0, 0⟩

/-- The default point used where the C code would read out of bounds. -/
def pt0 : Pt K := ⟨0, 0, 0⟩

/-- Loop body of P1906MOL_MicrotubulesField::getOverlap3D over candidate
rows. The GSL singular-value least-squares solve (gsl_linalg_SV_decomp /
gsl_linalg_SV_solve, an external library call) is modelled by the solve
argument, which for probe and candidate yields the parameter pair
(t, s) = (x(0), x(1)), or none when a solved parameter is NaN (the
gsl_isnan checks). For a valid pair the candidate point is
pt = a + t * (b - a) componentwise (exactly as the code computes it from
x(0)), and it is recorded together with the candidate row index if and
only if the twelve bounding-box comparisons pass. -/
def getOverlap3DGo (solve : Seg K → Seg K → Option (K × K)) (segment : Seg K) :
    List (Seg K) → ℕ → List (Pt K × ℕ)
  | [], _ => []
  | c :: rest, i =>
    match solve segment c with
    | none => getOverlap3DGo solve segment rest (i + 1)
    | some (t, _s) =>
      let pt : Pt K := ⟨segment.x1 + t * (segment.x2 - segment.x1),
                        segment.y1 + t * (segment.y2 - segment.y1),
                        segment.z1 + t * (segment.z2 - segment.z1)⟩
      if overlapGuard segment c pt then
        (pt, i) :: getOverlap3DGo solve segment rest (i + 1)
      else
        getOverlap3DGo solve segment rest (i + 1)

/-- P1906MOL_MicrotubulesField::getOverlap3D: scans every row of the tube
matrix as a candidate against the probe segment, returning the recorded
intersection points paired with the recorded candidate row indices
(the pts rows and the tubeSegments entries). -/
def getOverlap3D (solve : Seg K → Seg K → Option (K × K)) (segment : Seg K)
    (tubeMatrix : List (Seg K)) : List (Pt K × ℕ) :=
  getOverlap3DGo solve segment tubeMatrix 0

/-- P1906MOL_MicrotubulesField::getAllOverlaps3D: applies getOverlap3D
with every row of the tube matrix as the probe and concatenates the
recorded points in probe order. -/
def getAllOverlaps3D (solve : Seg K → Seg K → Option (K × K))
    (tubeMatrix : List (Seg K)) : List (Pt K) :=
  (tubeMatrix.map (fun s => (getOverlap3D solve s tubeMatrix).map Prod.fst)).flatten

/-- gsl_ran_gaussian(r, sigma), an external GSL call: consumes one draw
from the stream and returns it scaled to standard deviation sigma;
the second component is the advanced draw counter. -/
def gslRanGaussian (draws : ℕ → K) (idx : ℕ) (sigma : K) : K × ℕ :=
  (sigma * draws idx, idx + 1)

/-- gsl_rng_uniform(r), an external GSL call: consumes and returns one
draw from the stream. -/
def gslRngUniform (draws : ℕ → K) (idx : ℕ) : K × ℕ :=
  (draws idx, idx + 1)

/-- P1906MOL_ExtendedMotion::brownianMotion
(p1906-mol-extended-motion revision): D = 1.0,
sigma = sqrt(2 * D * timePeriod), and newPos adds an independent
gsl_ran_gaussian(r, sigma) sample to each coordinate of currentPos.
Returns the new position and the advanced draw counter. -/
def brownianMotion (sqrtK : K → K) (draws : ℕ → K) (idx : ℕ)
    (currentPos : Pt K) (timePeriod : K) : Pt K × ℕ :=
  let D : K := 1
  let sigma := sqrtK (2 * D * timePeriod)
  let gx := gslRanGaussian draws idx sigma
  let gy := gslRanGaussian draws gx.2 sigma
  let gz := gslRanGaussian draws gy.2 sigma
  (⟨currentPos.x + gx.1, currentPos.y + gy.1, currentPos.z + gz.1⟩, gz.2)

/-- P1906MOL_MicrotubulesField::brownianMotion (the field revision):
sigma = timePeriod directly, and newPos adds an independent
gsl_ran_gaussian(r, sigma) sample to each coordinate of currentPos. -/
def brownianMotionField (draws : ℕ → K) (idx : ℕ)
    (currentPos : Pt K) (timePeriod : K) : Pt K × ℕ :=
  let sigma := timePeriod
  let gx := gslRanGaussian draws idx sigma
  let gy := gslRanGaussian draws gx.2 sigma
  let gz := gslRanGaussian draws gy.2 sigma
  (⟨currentPos.x + gx.1, currentPos.y + gy.1, currentPos.z + gz.1⟩, gz.2)

/-- Spec-side definition of one Brownian step whose per-axis Gaussian
sampler receives the standard deviation sigma: each coordinate advances
by gsl_ran_gaussian(r, sigma). Used to state which sigma a
brownianMotion revision passes to the sampler. -/
def gaussianStepSpec (sigma : K) (draws : ℕ → K) (idx : ℕ)
    (currentPos : Pt K) : Pt K × ℕ :=
  let gx := gslRanGaussian draws idx sigma
  let gy := gslRanGaussian draws gx.2 sigma
  let gz := gslRanGaussian draws gy.2 sigma
  (⟨currentPos.x + gx.1, currentPos.y + gy.1, currentPos.z + gz.1⟩, gz.2)

/-- The mutable motor state threaded through the motion methods: the
motor's current_location, the position history vector pts, the simulated
time t.time, and the RNG draw counter. -/
structure MotorSt (K : Type) where
  loc : Pt K
  pts : List (Pt K)
  time : K
  idx : ℕ

/-- P1906MOL_ExtendedMotion::updateTime: adds the event duration to the
simulated time. -/
def updateTime (time event_time : K) : K := time + event_time

/-- The walking loop of P1906MOL_ExtendedMotion::motorWalk: walks the
given number of remaining segments starting at row i, appending each
row's end point to pts and advancing time by
distance(previous point, new point) / movementRate with
movementRate = 1000. The two points are re-read from the history as
pts(size-2) and pts(size-1), exactly as the code does. -/
def motorWalkGo (sqrtK : K → K) (tubeMatrix : List (Seg K)) :
    ℕ → ℕ → List (Pt K) → K → List (Pt K) × K
  | 0, _, pts, time => (pts, time)
  | n + 1, i, pts, time =>
    let movementRate : K := 1000
    let segment := tubeMatrix.getD i seg0
    let pts' := pts ++ [⟨segment.x2, segment.y2, segment.z2⟩]
    let pt1 := pts'.getD (pts'.length - 2) pt0
    let pt2 := pts'.getD (pts'.length - 1) pt0
    let time' := updateTime time (distanceP sqrtK pt1 pt2 / movementRate)
    motorWalkGo sqrtK tubeMatrix n (i + 1) pts' time'

/-- P1906MOL_ExtendedMotion::motorWalk (p1906-mol-extended-motion
revision): draws the binding test (gsl_rng_uniform against
binding_probability = 1.0, returning unchanged apart from the consumed
draw if it fails), finds the nearest tube segment within radius 15
(returning if none, i.e. the size_t sentinel), records the starting
point, and walks segToGo = segPerTube - seg % segPerTube segments from
the bound segment to the end of its tube. The motor's current_location
(startPt) itself is not modified. -/
def motorWalk (sqrtK : K → K) (draws : ℕ → K) (tubeMatrix : List (Seg K))
    (segPerTube : ℕ) (st : MotorSt K) : MotorSt K :=
  let binding_probability : K := 1
  let u := gslRngUniform draws st.idx
  if u.1 > binding_probability then
    { st with idx := u.2 }
  else
    let radius : K := 15
    let seg := findNearestTube st.loc tubeMatrix radius
    if seg = -1 then
      { st with idx := u.2 }
    else
      let segNat := seg.toNat
      let pts1 := st.pts ++ [st.loc]
      let segOfTube := segNat % segPerTube
      let segToGo := segPerTube - segOfTube
      let walked := motorWalkGo sqrtK tubeMatrix segToGo segNat pts1 st.time
      { st with pts := walked.1, time := walked.2, idx := u.2 }

/-- The float loop of P1906MOL_ExtendedMotion::float2Tube with the given
remaining step budget: each iteration records the current position,
takes a Brownian step, advances time by timePeriod, and exits with the
nearest segment index as soon as findNearestTube within radius 15
returns something other than the sentinel. Returns the history, time,
draw counter, and the last findNearestTube result (-1 when the budget is
exhausted without contact, as in the code where the loop leaves ts = -1
from its final iteration). -/
def float2TubeGo (sqrtK : K → K) (draws : ℕ → K) (tubeMatrix : List (Seg K))
    (timePeriod : K) :
    ℕ → Pt K → List (Pt K) → K → ℕ → List (Pt K) × K × ℕ × Int
  | 0, _, pts, time, idx => (pts, time, idx, -1)
  | n + 1, pos, pts, time, idx =>
    let radius : K := 15
    let pts' := pts ++ [pos]
    let b := brownianMotion sqrtK draws idx pos timePeriod
    let time' := updateTime time timePeriod
    let ts := findNearestTube b.1 tubeMatrix radius
    if ts ≠ -1 then (pts', time', b.2, ts)
    else float2TubeGo sqrtK draws tubeMatrix timePeriod n b.1 pts' time' b.2

/-- P1906MOL_ExtendedMotion::float2Tube (p1906-mol-extended-motion
revision): floats from the motor's current_location (startPt) with a
step budget of timeout = 100 Brownian steps. The motor's
current_location is not modified; the history, time, and draw counter
are, and the contacted segment index is returned alongside. -/
def float2Tube (sqrtK : K → K) (draws : ℕ → K) (tubeMatrix : List (Seg K))
    (timePeriod : K) (st : MotorSt K) : MotorSt K × Int :=
  let timeout : ℕ := 100
  let r := float2TubeGo sqrtK draws tubeMatrix timePeriod timeout st.loc st.pts st.time st.idx
  ({ st with pts := r.1, time := r.2.1, idx := r.2.2.1 }, r.2.2.2)

/-- P1906MOL_Motor::setLocation applied to pts.back(): the loop body of
both move2Destination revisions calls float2Tube, sets current_location
to the last history point, calls motorWalk, and sets current_location to
the last history point again. pts.back() on an empty history is
undefined in C and modelled as keeping the current location. -/
def move2DestinationBody (sqrtK : K → K) (draws : ℕ → K)
    (tubeMatrix : List (Seg K)) (segPerTube : ℕ) (timePeriod : K)
    (st : MotorSt K) : MotorSt K :=
  let f := float2Tube sqrtK draws tubeMatrix timePeriod st
  let st1 := { f.1 with loc := f.1.pts.getLastD f.1.loc }
  let st2 := motorWalk sqrtK draws tubeMatrix segPerTube st1
  { st2 with loc := st2.pts.getLastD st2.loc }

/-- The capped loop of the P1906MOL_Motor::move2Destination revision with
the timeout: while !inDestination() and loops < timeout, run the body
and count the iteration. Returns the final state and the number of loop
iterations executed. -/
def move2DestinationGo (body : MotorSt K → MotorSt K)
    (destination_volume : DestVol K) :
    ℕ → MotorSt K → MotorSt K × ℕ
  | 0, st => (st, 0)
  | n + 1, st =>
    if inDestination st.loc destination_volume then (st, 0)
    else
      let r := move2DestinationGo body destination_volume n (body st)
      (r.1, r.2 + 1)

/-- The P1906MOL_Motor::move2Destination revision with the hard cap
(timeout = 100, loops < timeout): alternates float2Tube and motorWalk
until inDestination() or 100 iterations. -/
def move2Destination (sqrtK : K → K) (draws : ℕ → K)
    (tubeMatrix : List (Seg K)) (segPerTube : ℕ) (timePeriod : K)
    (destination_volume : DestVol K) (st : MotorSt K) : MotorSt K × ℕ :=
  let timeout : ℕ := 100
  move2DestinationGo
    (move2DestinationBody sqrtK draws tubeMatrix segPerTube timePeriod)
    destination_volume timeout st

/-- The uncapped P1906MOL_Motor::move2Destination revision
(while (!inDestination()) with no loop counter), run for a prescribed
number of loop tests: some final state if the loop's guard fails (the
motor reached the destination volume) within that many tests, none if
the loop is still running after all of them. -/
def move2DestinationUncappedGo (body : MotorSt K → MotorSt K)
    (destination_volume : DestVol K) :
    ℕ → MotorSt K → Option (MotorSt K)
  | 0, _ => none
  | n + 1, st =>
    if inDestination st.loc destination_volume then some st
    else move2DestinationUncappedGo body destination_volume n (body st)

/-- Termination of the uncapped move2Destination revision from state st:
some number of loop tests suffices for the guard to fail. -/
def move2DestinationUncappedTerminates (sqrtK : K → K) (draws : ℕ → K)
    (tubeMatrix : List (Seg K)) (segPerTube : ℕ) (timePeriod : K)
    (destination_volume : DestVol K) (st : MotorSt K) : Prop :=
  ∃ n, (move2DestinationUncappedGo
    (move2DestinationBody sqrtK draws tubeMatrix segPerTube timePeriod)
    destination_volume n st).isSome

/-- P1906MOL_MicrotubulesField::genPersistenceLength: fills the angle
matrix (one angle per row, n rows) with
gsl_ran_gaussian(r, sqrt(2.0 * segLength / persistenceLength)) samples,
consuming n consecutive draws starting at idx. -/
def genPersistenceLengthAngles (sqrtK : K → K) (draws : ℕ → K) (idx n : ℕ)
    (segLength persistenceLength : K) : List K :=
  (List.range n).map
    (fun i => (gslRanGaussian draws (idx + i)
      (sqrtK (2 * segLength / persistenceLength))).1)

/-- The segment loop of P1906MOL_MicrotubulesField::genTube: builds the
given number of segment rows starting at angle row i. Row 0 starts at
the supplied start point, every later row starts at the previous row's
end point (columns 3, 4, 5), and each row's end point offsets its start
point by segLength in the spherical direction of the row's theta and psi
angles. -/
def genTubeSegsGo (sinK cosK : K → K) (segLength : K) (theta psi : ℕ → K) :
    ℕ → ℕ → Pt K → List (Seg K)
  | 0, _, _ => []
  | n + 1, i, start =>
    let x := segLength * sinK (theta i) * cosK (psi i)
    let y := segLength * sinK (theta i) * sinK (psi i)
    let z := segLength * cosK (theta i)
    let e : Pt K := ⟨x + start.x, y + start.y, z + start.z⟩
    ⟨start.x, start.y, start.z, e.x, e.y, e.z⟩ ::
      genTubeSegsGo sinK cosK segLength theta psi n (i + 1) e

/-- P1906MOL_MicrotubulesField::genTube: draws ts.numSegments theta
angles then ts.numSegments psi angles via genPersistenceLength (angle
rows beyond the drawn ones, read when segPerTube exceeds numSegments,
are out-of-bounds reads in C and modelled as 0), then builds the
segPerTube segment rows. The structural-entropy side effect (ts->se from
sEntropy) is not consulted by any claim and is not modelled. Returns the
segment rows and the advanced draw counter. -/
def genTube (sinK cosK sqrtK : K → K) (draws : ℕ → K) (idx : ℕ)
    (ts : TubeChars K) (startPt : Pt K) : List (Seg K) × ℕ :=
  let segAngleTheta := genPersistenceLengthAngles sqrtK draws idx
    ts.numSegments ts.segLength ts.persistenceLength
  let segAnglePsi := genPersistenceLengthAngles sqrtK draws
    (idx + ts.numSegments) ts.numSegments ts.segLength ts.persistenceLength
  (genTubeSegsGo sinK cosK ts.segLength
    (fun i => segAngleTheta.getD i 0) (fun i => segAnglePsi.getD i 0)
    ts.segPerTube 0 startPt,
   idx + ts.numSegments + ts.numSegments)

/-- The tube loop of P1906MOL_MicrotubulesField::genTubes: for each tube,
draws a Gaussian start point with sigma = pow(volume, (1/3)) — where
(1/3) is C integer division, so the exponent is 0 and sigma is
volume^0 = 1, reproduced faithfully — then generates the tube's segment
rows with genTube. Returns the list of tubes. -/
def genTubesGo (sinK cosK sqrtK : K → K) (draws : ℕ → K) (ts : TubeChars K) :
    ℕ → ℕ → List (List (Seg K))
  | 0, _ => []
  | n + 1, idx =>
    let sigma := ts.volume ^ ((1 : ℕ) / 3)
    let sx := gslRanGaussian draws idx sigma
    let sy := gslRanGaussian draws sx.2 sigma
    let sz := gslRanGaussian draws sy.2 sigma
    let tube := genTube sinK cosK sqrtK draws sz.2 ts ⟨sx.1, sy.1, sz.1⟩
    tube.1 :: genTubesGo sinK cosK sqrtK draws ts n tube.2

/-- P1906MOL_MicrotubulesField::genTubes: generates ts.numTubes tubes and
copies each tube's segPerTube segment rows consecutively into the main
tube matrix (row i * segPerTube + j is tube i's row j), i.e. the
concatenation of the tubes' rows. -/
def genTubes (sinK cosK sqrtK : K → K) (draws : ℕ → K) (idx : ℕ)
    (ts : TubeChars K) : List (Seg K) :=
  (genTubesGo sinK cosK sqrtK draws ts ts.numTubes idx).flatten

/-- Invariant of findNearestTube's scan after examining the first n rows:
none means no examined row computed an actual (non-NaN) distance within
radius; some (i, sd) means row i is an examined row whose computed
distance is the number sd, within radius, least among the examined
in-radius rows and strictly less than every earlier examined in-radius
row's distance. -/
def fntInv (pt : Pt ℚ) (net : List (Seg ℚ)) (radius : ℚ) (n : ℕ) :
    Option (ℕ × ℚ) → Prop
  | none => ∀ j < n, ∀ d : ℚ,
      distanceSegChecked pt (net.getD j seg0) = some d → ¬ d ≤ radius
  | some (i, sd) =>
      i < n ∧ i < net.length ∧
      distanceSegChecked pt (net.getD i seg0) = some sd ∧ sd ≤ radius ∧
      (∀ j < n, ∀ dj : ℚ, distanceSegChecked pt (net.getD j seg0) = some dj →
        dj ≤ radius → sd ≤ dj) ∧
      (∀ j < i, ∀ dj : ℚ, distanceSegChecked pt (net.getD j seg0) = some dj →
        dj ≤ radius → sd < dj)

/-! Claim theorems. -/

/-- Claim C1 (code bug): the code's inDestination is not the axis-aligned
box containment test. At current location (1500, 0, 0) with destination
volume set from lower-left (1000, 1000, 1000) and upper-right
(2000, 2000, 2000), inDestination returns true although the location
violates the lower-bound face inequalities on y and z (0 < 1000),
because the code compares y and z against the lower-left corner with <=
instead of >=. -/
theorem inDestination_failing_input :
    inDestination (K := ℚ) ⟨1500, 0, 0⟩
      (setDestinationVolume ⟨1000, 1000, 1000⟩ ⟨2000, 2000, 2000⟩) = true ∧
    inDestinationBoxSpec (K := ℚ) ⟨1500, 0, 0⟩ ⟨1000, 1000, 1000⟩
      ⟨2000, 2000, 2000⟩ = false := by
  constructor
  · decide
  · decide

/-- Claim C10: isPointOverlap never reads the segment's end point: its
direction vector is always (0, 0, 0), and its result is unchanged under
any modification of the segment's last three components, i.e. it agrees
on any two segments sharing the first three components. -/
theorem isPointOverlap_ignores_end_point :
    (∀ s : Seg ℚ, isPointOverlapDV s = pt0) ∧
    (∀ (pt : Pt ℚ) (s1 s2 : Seg ℚ), s1.x1 = s2.x1 → s1.y1 = s2.y1 →
      s1.z1 = s2.z1 → isPointOverlap pt s1 = isPointOverlap pt s2) := by
  constructor
  · intro s
    simp [isPointOverlapDV, pt0]
  · intro pt s1 s2 hx hy hz
    simp only [isPointOverlap, hx, hy, hz]

/-- Witness for C10: at point (1, 2, 3), the segments (0, 0, 0, 5, 5, 5)
and (0, 0, 0, 7, 1, 2) share a start point, differ in their end points,
and get the same isPointOverlap verdict. -/
theorem isPointOverlap_ignores_end_point_witness :
    (⟨0, 0, 0, 5, 5, 5⟩ : Seg ℚ).x1 = (⟨0, 0, 0, 7, 1, 2⟩ : Seg ℚ).x1 ∧
    (⟨0, 0, 0, 5, 5, 5⟩ : Seg ℚ).y1 = (⟨0, 0, 0, 7, 1, 2⟩ : Seg ℚ).y1 ∧
    (⟨0, 0, 0, 5, 5, 5⟩ : Seg ℚ).z1 = (⟨0, 0, 0, 7, 1, 2⟩ : Seg ℚ).z1 ∧
    isPointOverlap (⟨1, 2, 3⟩ : Pt ℚ) ⟨0, 0, 0, 5, 5, 5⟩ =
      isPointOverlap (⟨1, 2, 3⟩ : Pt ℚ) ⟨0, 0, 0, 7, 1, 2⟩ :=
  ⟨rfl, rfl, rfl,
    isPointOverlap_ignores_end_point.2 ⟨1, 2, 3⟩ ⟨0, 0, 0, 5, 5, 5⟩
      ⟨0, 0, 0, 7, 1, 2⟩ rfl rfl rfl⟩

/-- Counterexample for C4: at point (1, 0, 0) and segment
(0, 0, 0)-(1, 1, 0) (distinct end points), the code's distance returns
1/2 (L1 norm of the cross product over L1 norm of the baseline), while
the claimed Euclidean form gives 1 / sqrt 2; the two differ. -/
theorem distance_not_euclid_counterexample :
    segP1 (⟨0, 0, 0, 1, 1, 0⟩ : Seg ℝ) ≠ segP2 ⟨0, 0, 0, 1, 1, 0⟩ ∧
    distanceSeg (⟨1, 0, 0⟩ : Pt ℝ) ⟨0, 0, 0, 1, 1, 0⟩ ≠
      distanceSegEuclidSpec Real.sqrt ⟨1, 0, 0⟩ ⟨0, 0, 0, 1, 1, 0⟩ := by
  have hcode : distanceSeg (⟨1, 0, 0⟩ : Pt ℝ) ⟨0, 0, 0, 1, 1, 0⟩ = 1 / 2 := by
    simp [distanceSeg, segP1, segP2, ptSub, cross_product, dasum]
    norm_num
  have hs1 : Real.sqrt 1 = 1 := Real.sqrt_one
  have hspec : distanceSegEuclidSpec Real.sqrt (⟨1, 0, 0⟩ : Pt ℝ)
      ⟨0, 0, 0, 1, 1, 0⟩ = 1 / Real.sqrt 2 := by
    simp only [distanceSegEuclidSpec, segP1, segP2, ptSub, cross_product, dnrm2]
    norm_num
  constructor
  · intro h
    have hx : (0 : ℝ) = 1 := congrArg Pt.x h
    norm_num at hx
  · rw [hcode, hspec]
    intro h
    have h2 : Real.sqrt 2 = 2 := by
      have hne : (0 : ℝ) < 1 / Real.sqrt 2 := by
        have : 0 < Real.sqrt 2 := Real.sqrt_pos.mpr (by norm_num)
        positivity
      field_simp at h
      linarith [h]
    have := Real.sq_sqrt (by norm_num : (0 : ℝ) ≤ 2)
    rw [h2] at this
    norm_num at this

/-- Claim C4 as amended: for every point and every segment with distinct
end points, the code's distance equals the L1 norm (sum of absolute
components) of the cross product (pt - p1) x (pt - p2) divided by the
L1 norm of p2 - p1 — gsl_blas_dasum, not the Euclidean magnitude. -/
theorem distance_l1_formula (pt : Pt ℚ) (s : Seg ℚ)
    (_h : segP1 s ≠ segP2 s) :
    distanceSeg pt s =
      (|(pt.y - s.y1) * (pt.z - s.z2) - (pt.z - s.z1) * (pt.y - s.y2)| +
       |(pt.z - s.z1) * (pt.x - s.x2) - (pt.x - s.x1) * (pt.z - s.z2)| +
       |(pt.x - s.x1) * (pt.y - s.y2) - (pt.y - s.y1) * (pt.x - s.x2)|) /
      (|s.x2 - s.x1| + |s.y2 - s.y1| + |s.z2 - s.z1|) := by
  rfl

/-- Witness for C4: the amended formula evaluated at point (1, 0, 0) and
segment (0, 0, 0)-(1, 1, 0), whose end points are distinct, gives 1/2. -/
theorem distance_l1_formula_witness :
    segP1 (⟨0, 0, 0, 1, 1, 0⟩ : Seg ℚ) ≠ segP2 ⟨0, 0, 0, 1, 1, 0⟩ ∧
    distanceSeg (⟨1, 0, 0⟩ : Pt ℚ) ⟨0, 0, 0, 1, 1, 0⟩ = 1 / 2 := by
  refine ⟨by decide, ?_⟩
  rw [distance_l1_formula ⟨1, 0, 0⟩ ⟨0, 0, 0, 1, 1, 0⟩ (by decide)]
  norm_num

/-- Counterexample for C5: the P1906MOL_MicrotubulesField::brownianMotion
revision does not pass sqrt(2 * D * timePeriod) to the Gaussian sampler.
With every draw equal to 1, timePeriod 8, starting at the origin, the
field revision moves each axis by 8 (sigma = timePeriod), not by
sqrt(2 * 1 * 8) = 4 as the claim requires. -/
theorem brownianMotionField_sigma_counterexample :
    brownianMotionField (K := ℝ) (fun _ => 1) 0 ⟨0, 0, 0⟩ 8 ≠
      gaussianStepSpec (Real.sqrt (2 * 1 * 8)) (fun _ => 1) 0 ⟨0, 0, 0⟩ := by
  intro h
  have hx : (8 : ℝ) * 1 + 0 = Real.sqrt (2 * 1 * 8) * 1 + 0 := by
    have := congrArg (fun p => (Prod.fst p).x) h
    simpa [brownianMotionField, gaussianStepSpec, gslRanGaussian] using this
  have h16 : Real.sqrt (2 * 1 * 8) = 4 := by
    rw [show (2 : ℝ) * 1 * 8 = 4 ^ 2 by norm_num]
    exact Real.sqrt_sq (by norm_num)
  rw [h16] at hx
  norm_num at hx

/-- Claim C5 as amended: the P1906MOL_ExtendedMotion::brownianMotion
revision passes sigma = sqrt(2 * D * timePeriod) with D = 1 to the
per-axis Gaussian sampler, while the P1906MOL_MicrotubulesField revision
passes sigma = timePeriod directly. -/
theorem brownianMotion_sigma (draws : ℕ → ℝ) (idx : ℕ) (pos : Pt ℝ)
    (timePeriod : ℝ) :
    brownianMotion Real.sqrt draws idx pos timePeriod =
      gaussianStepSpec (Real.sqrt (2 * 1 * timePeriod)) draws idx pos ∧
    brownianMotionField draws idx pos timePeriod =
      gaussianStepSpec timePeriod draws idx pos :=
  ⟨rfl, rfl⟩

/-- Counterexample for C8: the derived-field invariants do not hold after
every sequence of setter calls. Starting from a zeroed struct, the
sequence setTubeVolume 25, setTubeLength 100, setTubeDensity 10,
setTubeSegments 10, setTubeVolume 50 leaves numSegments = 250 while
mean_tube_density * volume = 500, because setTubeVolume does not
recompute numSegments. -/
theorem setters_any_sequence_counterexample :
    ¬ (((setTubeVolume (setTubeSegments (setTubeDensity (setTubeLength
          (setTubeVolume (⟨0, 0, 0, 0, 0, 0, 0, 0, 0, 0, 0⟩ : TubeChars ℚ)
            25) 100) 10) 10) 50).numSegments : ℚ) =
        (setTubeVolume (setTubeSegments (setTubeDensity (setTubeLength
          (setTubeVolume (⟨0, 0, 0, 0, 0, 0, 0, 0, 0, 0, 0⟩ : TubeChars ℚ)
            25) 100) 10) 10) 50).mean_tube_density *
        (setTubeVolume (setTubeSegments (setTubeDensity (setTubeLength
          (setTubeVolume (⟨0, 0, 0, 0, 0, 0, 0, 0, 0, 0, 0⟩ : TubeChars ℚ)
            25) 100) 10) 10) 50).volume) := by
  simp only [setTubeVolume, setTubeSegments, setTubeDensity, setTubeLength]
  rw [show ⌊(10 : ℚ) * 25⌋ = 250 by norm_num,
      show Int.toNat 250 = 250 from rfl]
  norm_num

/-- Claim C8 as amended: the derived-field invariants hold after the
canonical initialization order used by the drivers (volume, length,
intra-angle, inter-angle, density, persistence length, segments), with
the size_t truncation made explicit: numSegments is the floor of
mean_tube_density * volume (assumed non-negative), numTubes is the
natural (floor) division of numSegments by segPerTube, and segLength is
mean_tube_length / 5. Arbitrary orders are not covered: setTubeVolume
does not recompute numSegments and setTubeDensity does not recompute
numTubes. -/
theorem setters_canonical_order (ts0 : TubeChars ℚ)
    (v l ia ie d p : ℚ) (s : ℕ) (h : 0 ≤ d * v) :
    ((setTubeSegments (setTubePersistenceLength (setTubeDensity
        (setTubeInterAngle (setTubeIntraAngle (setTubeLength
          (setTubeVolume ts0 v) l) ia) ie) d) p) s).numSegments : ℤ) =
      ⌊d * v⌋ ∧
    (setTubeSegments (setTubePersistenceLength (setTubeDensity
        (setTubeInterAngle (setTubeIntraAngle (setTubeLength
          (setTubeVolume ts0 v) l) ia) ie) d) p) s).numTubes =
      (setTubeSegments (setTubePersistenceLength (setTubeDensity
        (setTubeInterAngle (setTubeIntraAngle (setTubeLength
          (setTubeVolume ts0 v) l) ia) ie) d) p) s).numSegments / s ∧
    (setTubeSegments (setTubePersistenceLength (setTubeDensity
        (setTubeInterAngle (setTubeIntraAngle (setTubeLength
          (setTubeVolume ts0 v) l) ia) ie) d) p) s).segLength = l / 5 := by
  refine ⟨?_, rfl, rfl⟩
  simp only [setTubeSegments, setTubePersistenceLength, setTubeDensity,
    setTubeInterAngle, setTubeIntraAngle, setTubeLength, setTubeVolume]
  exact Int.toNat_of_nonneg (Int.floor_nonneg.mpr h)

/-- Witness for C8: the canonical order at the drivers' default values
volume 25, length 100, intra-angle 30, inter-angle 10, density 10,
persistence 50, segments per tube 10. -/
theorem setters_canonical_order_witness :
    (0 : ℚ) ≤ 10 * 25 ∧
    (((setTubeSegments (setTubePersistenceLength (setTubeDensity
        (setTubeInterAngle (setTubeIntraAngle (setTubeLength
          (setTubeVolume (⟨0, 0, 0, 0, 0, 0, 0, 0, 0, 0, 0⟩ : TubeChars ℚ)
            25) 100) 30) 10) 10) 50) 10).numSegments : ℤ) = ⌊(10 : ℚ) * 25⌋ ∧
      (setTubeSegments (setTubePersistenceLength (setTubeDensity
        (setTubeInterAngle (setTubeIntraAngle (setTubeLength
          (setTubeVolume (⟨0, 0, 0, 0, 0, 0, 0, 0, 0, 0, 0⟩ : TubeChars ℚ)
            25) 100) 30) 10) 10) 50) 10).numTubes =
        (setTubeSegments (setTubePersistenceLength (setTubeDensity
          (setTubeInterAngle (setTubeIntraAngle (setTubeLength
            (setTubeVolume (⟨0, 0, 0, 0, 0, 0, 0, 0, 0, 0, 0⟩ : TubeChars ℚ)
              25) 100) 30) 10) 10) 50) 10).numSegments / 10 ∧
      (setTubeSegments (setTubePersistenceLength (setTubeDensity
        (setTubeInterAngle (setTubeIntraAngle (setTubeLength
          (setTubeVolume (⟨0, 0, 0, 0, 0, 0, 0, 0, 0, 0, 0⟩ : TubeChars ℚ)
            25) 100) 30) 10) 10) 50) 10).segLength = 100 / 5) :=
  ⟨by norm_num,
    setters_canonical_order ⟨0, 0, 0, 0, 0, 0, 0, 0, 0, 0, 0⟩
      25 100 30 10 10 50 10 (by norm_num)⟩

lemma length_le_of_drop_eq_nil {α : Type} :
    ∀ (l : List α) (n : ℕ), l.drop n = [] → l.length ≤ n := by
  intro l
  induction l with
  | nil => intro n _; simp
  | cons a t ih =>
    intro n h
    cases n with
    | zero => simp at h
    | succ m =>
      simp only [List.drop_succ_cons] at h
      simpa using ih m h

lemma getD_of_drop_cons {α : Type} (d : α) :
    ∀ (l : List α) (n : ℕ) (s : α) (rest : List α),
      l.drop n = s :: rest → l.getD n d = s := by
  intro l
  induction l with
  | nil => intro n s rest h; simp at h
  | cons a t ih =>
    intro n s rest h
    cases n with
    | zero =>
      simp only [List.drop_zero] at h
      cases h
      rfl
    | succ m =>
      simp only [List.drop_succ_cons] at h
      simpa using ih m s rest h

lemma drop_succ_of_drop_cons {α : Type} :
    ∀ (l : List α) (n : ℕ) (s : α) (rest : List α),
      l.drop n = s :: rest → l.drop (n + 1) = rest := by
  intro l
  induction l with
  | nil => intro n s rest h; simp at h
  | cons a t ih =>
    intro n s rest h
    cases n with
    | zero =>
      simp only [List.drop_zero] at h
      cases h
      simp
    | succ m =>
      simp only [List.drop_succ_cons] at h
      simpa using ih m s rest h

lemma lt_length_of_drop_cons {α : Type} (l : List α) (n : ℕ) (s : α)
    (rest : List α) (h : l.drop n = s :: rest) : n < l.length := by
  by_contra hc
  push_neg at hc
  have : l.drop n = [] := List.drop_eq_nil_of_le hc
  rw [this] at h
  exact List.noConfusion h

lemma fntInv_of_le (pt : Pt ℚ) (net : List (Seg ℚ)) (radius : ℚ) (n : ℕ)
    (acc : Option (ℕ × ℚ)) (hn : net.length ≤ n)
    (h : fntInv pt net radius n acc) :
    fntInv pt net radius net.length acc := by
  cases acc with
  | none =>
    intro j hj
    exact h j (lt_of_lt_of_le hj hn)
  | some p =>
    obtain ⟨i, sd⟩ := p
    obtain ⟨_, hilen, hsd, hle, hmin, hfirst⟩ := h
    exact ⟨hilen, hilen, hsd, hle,
      fun j hj => hmin j (lt_of_lt_of_le hj hn), hfirst⟩

lemma fntGo_inv (pt : Pt ℚ) (net : List (Seg ℚ)) (radius : ℚ) :
    ∀ (l : List (Seg ℚ)) (n : ℕ) (acc : Option (ℕ × ℚ)),
      net.drop n = l → fntInv pt net radius n acc →
      fntInv pt net radius net.length (fntGo pt radius l n acc) := by
  intro l
  induction l with
  | nil =>
    intro n acc hdrop hinv
    exact fntInv_of_le pt net radius n acc (length_le_of_drop_eq_nil net n hdrop) hinv
  | cons s rest ih =>
    intro n acc hdrop hinv
    have hget : net.getD n seg0 = s := getD_of_drop_cons seg0 net n s rest hdrop
    have hdrop1 : net.drop (n + 1) = rest := drop_succ_of_drop_cons net n s rest hdrop
    have hlen : n < net.length := lt_length_of_drop_cons net n s rest hdrop
    cases hcd : distanceSegChecked pt s with
    | none =>
      simp only [fntGo, hcd]
      refine ih (n + 1) acc hdrop1 ?_
      cases acc with
      | none =>
        intro j hj d hd
        rcases Nat.lt_succ_iff_lt_or_eq.mp hj with hj' | hj'
        · exact hinv j hj' d hd
        · subst hj'
          rw [hget, hcd] at hd
          exact Option.noConfusion hd
      | some p =>
        obtain ⟨i, sd⟩ := p
        obtain ⟨hin, hilen, hcdi, hile, hmin, hfirst⟩ := hinv
        refine ⟨Nat.lt_succ_of_lt hin, hilen, hcdi, hile, ?_, hfirst⟩
        intro j hj dj hdj hdjr
        rcases Nat.lt_succ_iff_lt_or_eq.mp hj with hj' | hj'
        · exact hmin j hj' dj hdj hdjr
        · subst hj'
          rw [hget, hcd] at hdj
          exact Option.noConfusion hdj
    | some d =>
      cases acc with
      | none =>
        simp only [fntGo, hcd]
        by_cases hc : d ≤ radius
        · rw [if_pos hc]
          refine ih (n + 1) (some (n, d)) hdrop1 ?_
          refine ⟨Nat.lt_succ_self n, hlen, by rw [hget]; exact hcd, hc, ?_, ?_⟩
          · intro j hj dj hdj hdjr
            rcases Nat.lt_succ_iff_lt_or_eq.mp hj with hj' | hj'
            · exact absurd hdjr (hinv j hj' dj hdj)
            · subst hj'
              rw [hget, hcd] at hdj
              exact le_of_eq (Option.some.inj hdj)
          · intro j hj dj hdj hdjr
            exact absurd hdjr (hinv j hj dj hdj)
        · rw [if_neg hc]
          refine ih (n + 1) none hdrop1 ?_
          intro j hj dj hdj
          rcases Nat.lt_succ_iff_lt_or_eq.mp hj with hj' | hj'
          · exact hinv j hj' dj hdj
          · subst hj'
            rw [hget, hcd] at hdj
            have hdd := Option.some.inj hdj
            subst hdd
            exact hc
      | some p =>
        obtain ⟨i, sd⟩ := p
        obtain ⟨hin, hilen, hcdi, hile, hmin, hfirst⟩ := hinv
        simp only [fntGo, hcd]
        by_cases hc : d < sd ∧ d ≤ radius
        · rw [if_pos hc]
          refine ih (n + 1) (some (n, d)) hdrop1 ?_
          refine ⟨Nat.lt_succ_self n, hlen, by rw [hget]; exact hcd, hc.2, ?_, ?_⟩
          · intro j hj dj hdj hdjr
            rcases Nat.lt_succ_iff_lt_or_eq.mp hj with hj' | hj'
            · exact le_of_lt (lt_of_lt_of_le hc.1 (hmin j hj' dj hdj hdjr))
            · subst hj'
              rw [hget, hcd] at hdj
              exact le_of_eq (Option.some.inj hdj)
          · intro j hj dj hdj hdjr
            exact lt_of_lt_of_le hc.1 (hmin j hj dj hdj hdjr)
        · rw [if_neg hc]
          refine ih (n + 1) (some (i, sd)) hdrop1 ?_
          refine ⟨Nat.lt_succ_of_lt hin, hilen, hcdi, hile, ?_, hfirst⟩
          intro j hj dj hdj hdjr
          rcases Nat.lt_succ_iff_lt_or_eq.mp hj with hj' | hj'
          · exact hmin j hj' dj hdj hdjr
          · subst hj'
            rw [hget, hcd] at hdj
            have hdd := Option.some.inj hdj
            subst hdd
            have hns : ¬ d < sd := fun hlt => hc ⟨hlt, hdjr⟩
            exact not_lt.mp hns

/-- Claim C3: findNearestTube returns -1 exactly when no row of the
network computes an actual (non-NaN) line distance within radius of the
query point — a degenerate row (coinciding end points) computes the NaN
of 0/0, which fails every comparison and never counts as in radius;
otherwise it returns the index of a row whose computed distance is a
number within radius, least among in-radius rows, and strictly below
every earlier in-radius row's distance (the first minimum under the
strict less-than update). -/
theorem findNearestTube_spec (pt : Pt ℚ) (net : List (Seg ℚ)) (radius : ℚ) :
    (findNearestTube pt net radius = -1 ↔
      ∀ j < net.length, ∀ d : ℚ,
        distanceSegChecked pt (net.getD j seg0) = some d → ¬ d ≤ radius) ∧
    (∀ i : ℕ, findNearestTube pt net radius = (i : Int) →
      i < net.length ∧
      ∃ di : ℚ, distanceSegChecked pt (net.getD i seg0) = some di ∧
        di ≤ radius ∧
        (∀ j < net.length, ∀ dj : ℚ,
          distanceSegChecked pt (net.getD j seg0) = some dj → dj ≤ radius →
          di ≤ dj) ∧
        (∀ j < i, ∀ dj : ℚ,
          distanceSegChecked pt (net.getD j seg0) = some dj → dj ≤ radius →
          di < dj)) := by
  have h0 : fntInv pt net radius 0 none := by
    intro j hj
    exact absurd hj (Nat.not_lt_zero j)
  have hmain := fntGo_inv pt net radius net 0 none (by simp) h0
  cases hfin : fntGo pt radius net 0 none with
  | none =>
    rw [hfin] at hmain
    constructor
    · constructor
      · intro _ j hj
        exact hmain j hj
      · intro _
        simp [findNearestTube, hfin]
    · intro i hi
      simp only [findNearestTube, hfin] at hi
      omega
  | some p =>
    obtain ⟨i0, sd⟩ := p
    rw [hfin] at hmain
    obtain ⟨hlen, _, hcdi, hle, hmin, hfirst⟩ := hmain
    constructor
    · constructor
      · intro hsent
        simp only [findNearestTube, hfin] at hsent
        omega
      · intro hnone
        exact absurd hle (hnone i0 hlen sd hcdi)
    · intro i hi
      simp only [findNearestTube, hfin] at hi
      have hii : i0 = i := by omega
      subst hii
      exact ⟨hlen, sd, hcdi, hle, hmin, hfirst⟩

/-- Witness for C3: a three-row network in which both proper rows are
within radius 15 of the origin, the second row is strictly nearer, and
the third row is degenerate (its distance is NaN and it is never
selected); findNearestTube returns index 1 and the spec's conclusions
hold there. -/
theorem findNearestTube_spec_witness :
    findNearestTube (⟨0, 0, 0⟩ : Pt ℚ)
      [⟨0, 0, 2, 1, 0, 2⟩, ⟨0, 0, 1, 1, 0, 1⟩, ⟨3, 3, 3, 3, 3, 3⟩] 15 =
      (1 : Int) ∧
    (1 < ([⟨0, 0, 2, 1, 0, 2⟩, ⟨0, 0, 1, 1, 0, 1⟩,
        ⟨3, 3, 3, 3, 3, 3⟩] : List (Seg ℚ)).length ∧
      ∃ di : ℚ, distanceSegChecked (⟨0, 0, 0⟩ : Pt ℚ)
          (([⟨0, 0, 2, 1, 0, 2⟩, ⟨0, 0, 1, 1, 0, 1⟩,
            ⟨3, 3, 3, 3, 3, 3⟩] : List (Seg ℚ)).getD 1 seg0) = some di ∧
        di ≤ 15 ∧
        (∀ j < ([⟨0, 0, 2, 1, 0, 2⟩, ⟨0, 0, 1, 1, 0, 1⟩,
            ⟨3, 3, 3, 3, 3, 3⟩] : List (Seg ℚ)).length, ∀ dj : ℚ,
          distanceSegChecked (⟨0, 0, 0⟩ : Pt ℚ)
            (([⟨0, 0, 2, 1, 0, 2⟩, ⟨0, 0, 1, 1, 0, 1⟩,
              ⟨3, 3, 3, 3, 3, 3⟩] : List (Seg ℚ)).getD j seg0) = some dj →
          dj ≤ 15 → di ≤ dj) ∧
        (∀ j < 1, ∀ dj : ℚ,
          distanceSegChecked (⟨0, 0, 0⟩ : Pt ℚ)
            (([⟨0, 0, 2, 1, 0, 2⟩, ⟨0, 0, 1, 1, 0, 1⟩,
              ⟨3, 3, 3, 3, 3, 3⟩] : List (Seg ℚ)).getD j seg0) = some dj →
          dj ≤ 15 → di < dj)) := by
  have hcomp : findNearestTube (⟨0, 0, 0⟩ : Pt ℚ)
      [⟨0, 0, 2, 1, 0, 2⟩, ⟨0, 0, 1, 1, 0, 1⟩, ⟨3, 3, 3, 3, 3, 3⟩] 15 =
      (1 : Int) := by
    norm_num [findNearestTube, fntGo, distanceSegChecked, distanceSeg,
      segP1, segP2, ptSub, cross_product, dasum]
  exact ⟨hcomp,
    (findNearestTube_spec ⟨0, 0, 0⟩
      [⟨0, 0, 2, 1, 0, 2⟩, ⟨0, 0, 1, 1, 0, 1⟩, ⟨3, 3, 3, 3, 3, 3⟩]
      15).2 1 hcomp⟩

lemma getOverlap3DGo_mem (solve : Seg ℚ → Seg ℚ → Option (ℚ × ℚ))
    (segment : Seg ℚ) :
    ∀ (l : List (Seg ℚ)) (i0 : ℕ) (p : Pt ℚ) (i : ℕ),
      (p, i) ∈ getOverlap3DGo solve segment l i0 →
      ∃ k, k < l.length ∧ i = i0 + k ∧
        overlapGuard segment (l.getD k seg0) p ∧
        ∃ tp, solve segment (l.getD k seg0) = some tp := by
  intro l
  induction l with
  | nil =>
    intro i0 p i h
    simp [getOverlap3DGo] at h
  | cons c rest ih =>
    intro i0 p i h
    cases hs : solve segment c with
    | none =>
      rw [getOverlap3DGo, hs] at h
      obtain ⟨k, hk, hi, hg, htp⟩ := ih (i0 + 1) p i h
      exact ⟨k + 1, by simpa using hk, by omega, hg, htp⟩
    | some tp0 =>
      obtain ⟨t, s⟩ := tp0
      rw [getOverlap3DGo, hs] at h
      dsimp only at h
      by_cases hg : overlapGuard segment c
          ⟨segment.x1 + t * (segment.x2 - segment.x1),
           segment.y1 + t * (segment.y2 - segment.y1),
           segment.z1 + t * (segment.z2 - segment.z1)⟩
      · rw [if_pos hg] at h
        rcases List.mem_cons.mp h with heq | htail
        · obtain ⟨hp, hi⟩ := Prod.mk.injEq .. ▸ heq
          refine ⟨0, by simp, by omega, ?_, ⟨(t, s), by simpa using hs⟩⟩
          simp only [List.getD]
          simpa [hp] using hg
        · obtain ⟨k, hk, hi, hg2, htp⟩ := ih (i0 + 1) p i htail
          exact ⟨k + 1, by simpa using hk, by omega, hg2, htp⟩
      · rw [if_neg hg] at h
        obtain ⟨k, hk, hi, hg2, htp⟩ := ih (i0 + 1) p i h
        exact ⟨k + 1, by simpa using hk, by omega, hg2, htp⟩

/-- Claim C6: every point recorded by getOverlap3D lies inside the
axis-aligned bounding boxes of both the probe segment and the matched
candidate row (the twelve inclusive min/max comparisons of the guard),
and is only recorded when the solver produced a valid (non-NaN)
parameter pair for that candidate; consequently every point aggregated
by getAllOverlaps3D lies inside the bounding boxes of its probe and its
matched candidate. -/
theorem getOverlap3D_bbox (solve : Seg ℚ → Seg ℚ → Option (ℚ × ℚ))
    (segment : Seg ℚ) (net : List (Seg ℚ)) :
    (∀ (p : Pt ℚ) (i : ℕ), (p, i) ∈ getOverlap3D solve segment net →
      i < net.length ∧ overlapGuard segment (net.getD i seg0) p ∧
      ∃ tp, solve segment (net.getD i seg0) = some tp) ∧
    (∀ p ∈ getAllOverlaps3D solve net, ∃ probe ∈ net, ∃ i < net.length,
      overlapGuard probe (net.getD i seg0) p) := by
  constructor
  · intro p i h
    obtain ⟨k, hk, hi, hg, htp⟩ := getOverlap3DGo_mem solve segment net 0 p i h
    have hik : i = k := by omega
    subst hik
    exact ⟨hk, hg, htp⟩
  · intro p hp
    simp only [getAllOverlaps3D, List.mem_flatten, List.mem_map] at hp
    obtain ⟨lp, ⟨probe, hprobe, hlp⟩, hplp⟩ := hp
    subst hlp
    obtain ⟨pr, hpr, hpeq⟩ := List.mem_map.mp hplp
    obtain ⟨pp, ii⟩ := pr
    have hmem : (pp, ii) ∈ getOverlap3D solve probe net := hpr
    obtain ⟨k, hk, hi, hg, _⟩ := getOverlap3DGo_mem solve probe net 0 pp ii hmem
    have hik : ii = k := by omega
    subst hik
    subst hpeq
    exact ⟨probe, hprobe, ii, hk, hg⟩

/-- Witness for C6: probe (0,0,0)-(5,5,0) against the one-row network
(5,0,0)-(0,5,0) with the solver yielding t = s = 1/2 records the point
(5/2, 5/2, 0) at row 0, which lies in both bounding boxes. -/
theorem getOverlap3D_bbox_witness :
    ((⟨5 / 2, 5 / 2, 0⟩ : Pt ℚ), 0) ∈
      getOverlap3D (fun _ _ => some (1 / 2, 1 / 2)) ⟨0, 0, 0, 5, 5, 0⟩
        [⟨5, 0, 0, 0, 5, 0⟩] ∧
    (0 < ([⟨5, 0, 0, 0, 5, 0⟩] : List (Seg ℚ)).length ∧
      overlapGuard (⟨0, 0, 0, 5, 5, 0⟩ : Seg ℚ)
        (([⟨5, 0, 0, 0, 5, 0⟩] : List (Seg ℚ)).getD 0 seg0) ⟨5 / 2, 5 / 2, 0⟩ ∧
      ∃ tp, (fun (_ _ : Seg ℚ) => some ((1 : ℚ) / 2, (1 : ℚ) / 2))
        (⟨0, 0, 0, 5, 5, 0⟩ : Seg ℚ)
        (([⟨5, 0, 0, 0, 5, 0⟩] : List (Seg ℚ)).getD 0 seg0) = some tp) := by
  have hg : overlapGuard (⟨0, 0, 0, 5, 5, 0⟩ : Seg ℚ) ⟨5, 0, 0, 0, 5, 0⟩
      ⟨0 + 1 / 2 * (5 - 0), 0 + 1 / 2 * (5 - 0), 0 + 1 / 2 * (0 - 0)⟩ := by
    simp only [overlapGuard, min_le_iff, ge_iff_le, le_max_iff]
    norm_num
  have hmem : ((⟨5 / 2, 5 / 2, 0⟩ : Pt ℚ), 0) ∈
      getOverlap3D (fun _ _ => some (1 / 2, 1 / 2)) ⟨0, 0, 0, 5, 5, 0⟩
        [⟨5, 0, 0, 0, 5, 0⟩] := by
    rw [getOverlap3D, getOverlap3DGo]
    dsimp only
    rw [if_pos hg]
    norm_num
  exact ⟨hmem,
    (getOverlap3D_bbox (fun _ _ => some (1 / 2, 1 / 2)) ⟨0, 0, 0, 5, 5, 0⟩
      [⟨5, 0, 0, 0, 5, 0⟩]).1 ⟨5 / 2, 5 / 2, 0⟩ 0 hmem⟩

lemma genTubeSegsGo_length (sinK cosK : K → K) (segLength : K)
    (theta psi : ℕ → K) :
    ∀ (n i : ℕ) (start : Pt K),
      (genTubeSegsGo sinK cosK segLength theta psi n i start).length = n := by
  intro n
  induction n with
  | zero => intro i start; rfl
  | succ m ih =>
    intro i start
    simp only [genTubeSegsGo, List.length_cons]
    rw [ih]

lemma genTubeSegsGo_head (sinK cosK : K → K) (segLength : K)
    (theta psi : ℕ → K) (n i : ℕ) (start : Pt K) (hn : 0 < n) :
    segP1 ((genTubeSegsGo sinK cosK segLength theta psi n i start).getD 0 seg0) =
      start := by
  cases n with
  | zero => exact absurd hn (Nat.lt_irrefl 0)
  | succ m => rfl

lemma genTubeSegsGo_chain (sinK cosK : K → K) (segLength : K)
    (theta psi : ℕ → K) :
    ∀ (n i : ℕ) (start : Pt K) (j : ℕ), j + 1 < n →
      segP1 ((genTubeSegsGo sinK cosK segLength theta psi n i start).getD
        (j + 1) seg0) =
      segP2 ((genTubeSegsGo sinK cosK segLength theta psi n i start).getD
        j seg0) := by
  intro n
  induction n with
  | zero => intro i start j hj; exact absurd hj (Nat.not_lt_zero _)
  | succ m ih =>
    intro i start j hj
    cases j with
    | zero =>
      show segP1 ((genTubeSegsGo sinK cosK segLength theta psi m (i + 1) _).getD
        0 seg0) = _
      rw [genTubeSegsGo_head sinK cosK segLength theta psi m (i + 1) _
        (by omega)]
      rfl
    | succ j' =>
      show segP1 ((genTubeSegsGo sinK cosK segLength theta psi m (i + 1) _).getD
        (j' + 1) seg0) = segP2 ((genTubeSegsGo sinK cosK segLength theta psi m
        (i + 1) _).getD j' seg0)
      exact ih (i + 1) _ j' (by omega)

lemma genTubesGo_length (sinK cosK sqrtK : K → K) (draws : ℕ → K)
    (ts : TubeChars K) :
    ∀ (n idx : ℕ), (genTubesGo sinK cosK sqrtK draws ts n idx).length = n := by
  intro n
  induction n with
  | zero => intro idx; rfl
  | succ m ih =>
    intro idx
    simp only [genTubesGo, List.length_cons]
    rw [ih]

lemma genTubesGo_shape (sinK cosK sqrtK : K → K) (draws : ℕ → K)
    (ts : TubeChars K) :
    ∀ (n idx t : ℕ), t < n →
      ∃ (theta psi : ℕ → K) (startPt : Pt K),
        (genTubesGo sinK cosK sqrtK draws ts n idx).getD t [] =
          genTubeSegsGo sinK cosK ts.segLength theta psi ts.segPerTube 0 startPt := by
  intro n
  induction n with
  | zero => intro idx t ht; exact absurd ht (Nat.not_lt_zero _)
  | succ m ih =>
    intro idx t ht
    cases t with
    | zero =>
      exact ⟨_, _, _, rfl⟩
    | succ t' =>
      exact ih _ t' (by omega)

lemma genTubesGo_mem_length (sinK cosK sqrtK : K → K) (draws : ℕ → K)
    (ts : TubeChars K) :
    ∀ (n idx : ℕ), ∀ x ∈ genTubesGo sinK cosK sqrtK draws ts n idx,
      x.length = ts.segPerTube := by
  intro n
  induction n with
  | zero => intro idx x hx; simp [genTubesGo] at hx
  | succ m ih =>
    intro idx x hx
    rcases List.mem_cons.mp hx with hx | hx
    · subst hx
      exact genTubeSegsGo_length sinK cosK ts.segLength _ _ ts.segPerTube 0 _
    · exact ih _ x hx

lemma getD_append_lt {α : Type} (d : α) :
    ∀ (l1 l2 : List α) (j : ℕ), j < l1.length →
      (l1 ++ l2).getD j d = l1.getD j d := by
  intro l1
  induction l1 with
  | nil => intro l2 j hj; simp at hj
  | cons a t ih =>
    intro l2 j hj
    cases j with
    | zero => rfl
    | succ m =>
      show (t ++ l2).getD m d = t.getD m d
      exact ih l2 m (by simpa using hj)

lemma getD_append_add {α : Type} (d : α) :
    ∀ (l1 l2 : List α) (j : ℕ),
      (l1 ++ l2).getD (l1.length + j) d = l2.getD j d := by
  intro l1
  induction l1 with
  | nil => intro l2 j; simp
  | cons a t ih =>
    intro l2 j
    rw [show (a :: t).length + j = (t.length + j) + 1 by
      simp [List.length_cons]; omega]
    show (t ++ l2).getD (t.length + j) d = l2.getD j d
    exact ih l2 j

lemma flatten_getD_uniform {α : Type} (d : α) (s : ℕ) :
    ∀ (L : List (List α)) (t j : ℕ), (∀ x ∈ L, x.length = s) →
      t < L.length → j < s →
      L.flatten.getD (t * s + j) d = (L.getD t []).getD j d := by
  intro L
  induction L with
  | nil => intro t j _ ht _; simp at ht
  | cons hd tl ih =>
    intro t j hlen ht hj
    have hhd : hd.length = s := hlen hd (List.mem_cons_self hd tl)
    cases t with
    | zero =>
      rw [List.flatten_cons]
      have : (0 : ℕ) * s + j = j := by ring
      rw [this]
      rw [getD_append_lt d hd tl.flatten j (by omega)]
      rfl
    | succ t' =>
      rw [List.flatten_cons]
      have hidx : (t' + 1) * s + j = hd.length + (t' * s + j) := by
        rw [hhd]; ring
      rw [hidx, getD_append_add d hd tl.flatten (t' * s + j)]
      have := ih t' j (fun x hx => hlen x (List.mem_cons_of_mem hd hx))
        (by simpa using ht) hj
      rw [this]
      rfl

/-- Claim C7: for every tube produced by genTube, segment 0 starts at the
supplied start point and the start point of segment j + 1 equals the end
point of segment j for every j with j + 1 < segPerTube; and the same
chain invariant holds inside each tube of the flat matrix produced by
genTubes (row t * segPerTube + j is tube t's segment j). Instantiated at
the reals with the library primitives Real.sin, Real.cos, Real.sqrt. -/
theorem genTube_chain (draws : ℕ → ℝ) (idx : ℕ) (ts : TubeChars ℝ)
    (startPt : Pt ℝ) (j t : ℕ) :
    (0 < ts.segPerTube →
      segP1 (((genTube Real.sin Real.cos Real.sqrt draws idx ts startPt).1).getD
        0 seg0) = startPt) ∧
    (j + 1 < ts.segPerTube →
      segP1 (((genTube Real.sin Real.cos Real.sqrt draws idx ts startPt).1).getD
        (j + 1) seg0) =
      segP2 (((genTube Real.sin Real.cos Real.sqrt draws idx ts startPt).1).getD
        j seg0)) ∧
    (t < ts.numTubes → j + 1 < ts.segPerTube →
      segP1 ((genTubes Real.sin Real.cos Real.sqrt draws idx ts).getD
        (t * ts.segPerTube + (j + 1)) seg0) =
      segP2 ((genTubes Real.sin Real.cos Real.sqrt draws idx ts).getD
        (t * ts.segPerTube + j) seg0)) := by
  refine ⟨?_, ?_, ?_⟩
  · intro h
    exact genTubeSegsGo_head Real.sin Real.cos ts.segLength _ _ ts.segPerTube 0
      startPt h
  · intro h
    exact genTubeSegsGo_chain Real.sin Real.cos ts.segLength _ _ ts.segPerTube 0
      startPt j h
  · intro ht hj
    have hlenL := genTubesGo_length Real.sin Real.cos Real.sqrt draws ts
      ts.numTubes idx
    have hmem := genTubesGo_mem_length Real.sin Real.cos Real.sqrt draws ts
      ts.numTubes idx
    have h1 := flatten_getD_uniform seg0 ts.segPerTube
      (genTubesGo Real.sin Real.cos Real.sqrt draws ts ts.numTubes idx)
      t (j + 1) hmem (by omega) hj
    have h2 := flatten_getD_uniform seg0 ts.segPerTube
      (genTubesGo Real.sin Real.cos Real.sqrt draws ts ts.numTubes idx)
      t j hmem (by omega) (by omega)
    rw [genTubes, h1, h2]
    obtain ⟨theta, psi, sp, hshape⟩ := genTubesGo_shape Real.sin Real.cos
      Real.sqrt draws ts ts.numTubes idx t (by omega)
    rw [hshape]
    exact genTubeSegsGo_chain Real.sin Real.cos ts.segLength theta psi
      ts.segPerTube 0 sp j hj

/-- Witness for C7: a characteristics record with two segments per tube
and one tube; the start-point, within-tube chain, and flat-matrix chain
conclusions hold at tube 0, segment pair (0, 1). -/
theorem genTube_chain_witness :
    (0 < (2 : ℕ) ∧ 0 + 1 < (2 : ℕ) ∧ 0 < (1 : ℕ)) ∧
    (segP1 (((genTube Real.sin Real.cos Real.sqrt (fun _ => 0) 0
        ⟨1, 1, 1, 1, 1, 1, 1, 1, 2, 1, 0⟩ ⟨0, 0, 0⟩).1).getD 0 seg0) =
      (⟨0, 0, 0⟩ : Pt ℝ)) ∧
    (segP1 (((genTube Real.sin Real.cos Real.sqrt (fun _ => 0) 0
        ⟨1, 1, 1, 1, 1, 1, 1, 1, 2, 1, 0⟩ ⟨0, 0, 0⟩).1).getD (0 + 1) seg0) =
      segP2 (((genTube Real.sin Real.cos Real.sqrt (fun _ => 0) 0
        ⟨1, 1, 1, 1, 1, 1, 1, 1, 2, 1, 0⟩ ⟨0, 0, 0⟩).1).getD 0 seg0)) ∧
    (segP1 ((genTubes Real.sin Real.cos Real.sqrt (fun _ => 0) 0
        ⟨1, 1, 1, 1, 1, 1, 1, 1, 2, 1, 0⟩).getD (0 * 2 + (0 + 1)) seg0) =
      segP2 ((genTubes Real.sin Real.cos Real.sqrt (fun _ => 0) 0
        ⟨1, 1, 1, 1, 1, 1, 1, 1, 2, 1, 0⟩).getD (0 * 2 + 0) seg0)) := by
  have h := genTube_chain (fun _ => 0) 0 ⟨1, 1, 1, 1, 1, 1, 1, 1, 2, 1, 0⟩
    ⟨0, 0, 0⟩ 0 0
  exact ⟨⟨by norm_num, by norm_num, by norm_num⟩,
    h.1 (by norm_num), h.2.1 (by norm_num), h.2.2 (by norm_num) (by norm_num)⟩

lemma distanceP_nonneg (p1 p2 : Pt ℝ) : 0 ≤ distanceP Real.sqrt p1 p2 :=
  Real.sqrt_nonneg _

lemma motorWalkGo_time_mono (tubeMatrix : List (Seg ℝ)) :
    ∀ (n i : ℕ) (pts : List (Pt ℝ)) (time : ℝ),
      time ≤ (motorWalkGo Real.sqrt tubeMatrix n i pts time).2 := by
  intro n
  induction n with
  | zero => intro i pts time; exact le_refl _
  | succ m ih =>
    intro i pts time
    simp only [motorWalkGo, updateTime]
    refine le_trans (le_add_of_nonneg_right ?_) (ih (i + 1) _ _)
    exact div_nonneg (distanceP_nonneg _ _) (by norm_num)

lemma motorWalk_time_mono (draws : ℕ → ℝ) (tubeMatrix : List (Seg ℝ))
    (segPerTube : ℕ) (st : MotorSt ℝ) :
    st.time ≤ (motorWalk Real.sqrt draws tubeMatrix segPerTube st).time := by
  rw [motorWalk]
  by_cases hu : (gslRngUniform draws st.idx).1 > (1 : ℝ)
  · rw [if_pos hu]
  · rw [if_neg hu]
    by_cases hseg : findNearestTube st.loc tubeMatrix 15 = -1
    · rw [if_pos hseg]
    · rw [if_neg hseg]
      exact motorWalkGo_time_mono tubeMatrix _ _ _ st.time

lemma float2TubeGo_time_mono (draws : ℕ → ℝ) (tubeMatrix : List (Seg ℝ))
    (timePeriod : ℝ) (htp : 0 ≤ timePeriod) :
    ∀ (n : ℕ) (pos : Pt ℝ) (pts : List (Pt ℝ)) (time : ℝ) (idx : ℕ),
      time ≤ (float2TubeGo Real.sqrt draws tubeMatrix timePeriod n pos pts
        time idx).2.1 := by
  intro n
  induction n with
  | zero => intro pos pts time idx; exact le_refl _
  | succ m ih =>
    intro pos pts time idx
    rw [float2TubeGo]
    by_cases hts : findNearestTube
        (brownianMotion Real.sqrt draws idx pos timePeriod).1 tubeMatrix 15 ≠ -1
    · rw [if_pos hts]
      simp only [updateTime]
      linarith
    · rw [if_neg hts]
      refine le_trans ?_ (ih _ _ _ _)
      simp only [updateTime]
      linarith

lemma float2Tube_time_mono (draws : ℕ → ℝ) (tubeMatrix : List (Seg ℝ))
    (timePeriod : ℝ) (htp : 0 ≤ timePeriod) (st : MotorSt ℝ) :
    st.time ≤ ((float2Tube Real.sqrt draws tubeMatrix timePeriod st).1).time :=
  float2TubeGo_time_mono draws tubeMatrix timePeriod htp 100 st.loc st.pts
    st.time st.idx

lemma move2DestinationBody_time_mono (draws : ℕ → ℝ)
    (tubeMatrix : List (Seg ℝ)) (segPerTube : ℕ) (timePeriod : ℝ)
    (htp : 0 ≤ timePeriod) (st : MotorSt ℝ) :
    st.time ≤ (move2DestinationBody Real.sqrt draws tubeMatrix segPerTube
      timePeriod st).time := by
  show st.time ≤ (motorWalk Real.sqrt draws tubeMatrix segPerTube
    { (float2Tube Real.sqrt draws tubeMatrix timePeriod st).1 with
      loc := (float2Tube Real.sqrt draws tubeMatrix timePeriod
        st).1.pts.getLastD
        (float2Tube Real.sqrt draws tubeMatrix timePeriod st).1.loc }).time
  refine le_trans (float2Tube_time_mono draws tubeMatrix timePeriod htp st) ?_
  exact motorWalk_time_mono draws tubeMatrix segPerTube
    { (float2Tube Real.sqrt draws tubeMatrix timePeriod st).1 with
      loc := (float2Tube Real.sqrt draws tubeMatrix timePeriod
        st).1.pts.getLastD
        (float2Tube Real.sqrt draws tubeMatrix timePeriod st).1.loc }

lemma move2DestinationGo_time_mono (body : MotorSt ℝ → MotorSt ℝ)
    (dv : DestVol ℝ) (hbody : ∀ s, s.time ≤ (body s).time) :
    ∀ (fuel : ℕ) (st : MotorSt ℝ),
      st.time ≤ ((move2DestinationGo body dv fuel st).1).time := by
  intro fuel
  induction fuel with
  | zero => intro st; exact le_refl _
  | succ m ih =>
    intro st
    rw [move2DestinationGo]
    by_cases hin : inDestination st.loc dv = true
    · rw [if_pos hin]
    · rw [if_neg hin]
      exact le_trans (hbody st) (ih (body st))

/-- Claim C9: the motor's simulated time never decreases: given a
non-negative timePeriod, motorWalk, float2Tube, and the capped
move2Destination each leave the stored time at least as large as before
(each step adds timePeriod or a traversed Euclidean distance divided by
the movement rate). -/
theorem motor_time_monotone (draws : ℕ → ℝ) (tubeMatrix : List (Seg ℝ))
    (segPerTube : ℕ) (timePeriod : ℝ) (dv : DestVol ℝ) (st : MotorSt ℝ)
    (htp : 0 ≤ timePeriod) :
    st.time ≤ (motorWalk Real.sqrt draws tubeMatrix segPerTube st).time ∧
    st.time ≤ ((float2Tube Real.sqrt draws tubeMatrix timePeriod st).1).time ∧
    st.time ≤ ((move2Destination Real.sqrt draws tubeMatrix segPerTube
      timePeriod dv st).1).time := by
  refine ⟨motorWalk_time_mono draws tubeMatrix segPerTube st,
    float2Tube_time_mono draws tubeMatrix timePeriod htp st, ?_⟩
  exact move2DestinationGo_time_mono _ dv
    (fun s => move2DestinationBody_time_mono draws tubeMatrix segPerTube
      timePeriod htp s) 100 st

/-- Witness for C9: time monotonicity at timePeriod 1, the empty network,
and a motor starting at the origin with time 0. -/
theorem motor_time_monotone_witness :
    (0 : ℝ) ≤ 1 ∧
    ((⟨⟨0, 0, 0⟩, [], 0, 0⟩ : MotorSt ℝ).time ≤
      (motorWalk Real.sqrt (fun _ => 0) [] 1 ⟨⟨0, 0, 0⟩, [], 0, 0⟩).time ∧
    (⟨⟨0, 0, 0⟩, [], 0, 0⟩ : MotorSt ℝ).time ≤
      ((float2Tube Real.sqrt (fun _ => 0) [] 1 ⟨⟨0, 0, 0⟩, [], 0, 0⟩).1).time ∧
    (⟨⟨0, 0, 0⟩, [], 0, 0⟩ : MotorSt ℝ).time ≤
      ((move2Destination Real.sqrt (fun _ => 0) [] 1 1 ⟨0, 0, 0, 0, 0, 0⟩
        ⟨⟨0, 0, 0⟩, [], 0, 0⟩).1).time) :=
  ⟨by norm_num,
    motor_time_monotone (fun _ => 0) [] 1 1 ⟨0, 0, 0, 0, 0, 0⟩
      ⟨⟨0, 0, 0⟩, [], 0, 0⟩ (by norm_num)⟩

lemma move2DestinationGo_spec (body : MotorSt ℝ → MotorSt ℝ)
    (dv : DestVol ℝ) :
    ∀ (fuel : ℕ) (st : MotorSt ℝ),
      (move2DestinationGo body dv fuel st).2 ≤ fuel ∧
      ((move2DestinationGo body dv fuel st).2 < fuel →
        inDestination ((move2DestinationGo body dv fuel st).1).loc dv = true) ∧
      (0 < fuel → inDestination st.loc dv = true →
        move2DestinationGo body dv fuel st = (st, 0)) := by
  intro fuel
  induction fuel with
  | zero =>
    intro st
    exact ⟨le_refl 0, fun h => absurd h (Nat.lt_irrefl 0),
      fun h _ => absurd h (Nat.lt_irrefl 0)⟩
  | succ m ih =>
    intro st
    by_cases hin : inDestination st.loc dv = true
    · rw [move2DestinationGo, if_pos hin]
      exact ⟨Nat.zero_le _, fun _ => hin, fun _ _ => rfl⟩
    · rw [move2DestinationGo, if_neg hin]
      dsimp only
      obtain ⟨h1, h2, _⟩ := ih (body st)
      refine ⟨by omega, ?_, fun _ hc => absurd hc hin⟩
      intro hlt
      exact h2 (by omega)

lemma move2DestinationUncappedGo_stuck (body : MotorSt ℝ → MotorSt ℝ) :
    ∀ (n : ℕ) (st : MotorSt ℝ),
      move2DestinationUncappedGo body ⟨1, 0, 0, 0, 0, 0⟩ n st = none := by
  have hfalse : ∀ loc : Pt ℝ,
      ¬ inDestination loc (⟨1, 0, 0, 0, 0, 0⟩ : DestVol ℝ) = true := by
    intro loc h
    rw [inDestination, decide_eq_true_iff] at h
    obtain ⟨h1, h2, _⟩ := h
    have : (1 : ℝ) ≤ 0 := le_trans h1 h2
    norm_num at this
  intro n
  induction n with
  | zero => intro st; rfl
  | succ m ih =>
    intro st
    rw [move2DestinationUncappedGo, if_neg (hfalse st.loc)]
    exact ih (body st)

/-- Counterexample for C2: the uncapped move2Destination revision does
not always terminate. With destination_volume (1, 0, 0, 0, 0, 0) — an
empty destination whose x-interval is [1, 0] — inDestination is false at
every location, so from a motor at the origin (empty network, timePeriod
1, zero draws) no number of loop tests makes the uncapped loop's guard
fail: the iteration count is unbounded. -/
theorem move2DestinationUncapped_counterexample :
    ¬ move2DestinationUncappedTerminates Real.sqrt (fun _ => 0) [] 10 1
      ⟨1, 0, 0, 0, 0, 0⟩ ⟨⟨0, 0, 0⟩, [], 0, 0⟩ := by
  intro h
  obtain ⟨n, hn⟩ := h
  rw [move2DestinationUncappedGo_stuck
    (move2DestinationBody Real.sqrt (fun _ => 0) [] 10 1) n
    ⟨⟨0, 0, 0⟩, [], 0, 0⟩] at hn
  simp at hn

/-- Claim C2 as amended: the capped move2Destination revision (the one
with timeout = 100 and the loops counter) always terminates: for every
network, segPerTube, and time step it executes at most 100 iterations of
the float2Tube/motorWalk body; if it stops below the cap the final
location is in the destination volume, and it stops immediately
(zero iterations, state unchanged) when the motor is already in the
destination volume. The other revision, with no cap, need not terminate
(see the counterexample). -/
theorem move2Destination_capped_terminates (draws : ℕ → ℝ)
    (tubeMatrix : List (Seg ℝ)) (segPerTube : ℕ) (timePeriod : ℝ)
    (dv : DestVol ℝ) (st : MotorSt ℝ) :
    (move2Destination Real.sqrt draws tubeMatrix segPerTube timePeriod dv
      st).2 ≤ 100 ∧
    ((move2Destination Real.sqrt draws tubeMatrix segPerTube timePeriod dv
      st).2 < 100 →
      inDestination ((move2Destination Real.sqrt draws tubeMatrix segPerTube
        timePeriod dv st).1).loc dv = true) ∧
    (inDestination st.loc dv = true →
      move2Destination Real.sqrt draws tubeMatrix segPerTube timePeriod dv
        st = (st, 0)) := by
  obtain ⟨h1, h2, h3⟩ := move2DestinationGo_spec
    (move2DestinationBody Real.sqrt draws tubeMatrix segPerTube timePeriod)
    dv 100 st
  exact ⟨h1, h2, fun hin => h3 (by norm_num) hin⟩

/-- Witness for C2: a motor already inside the (code's notion of the)
destination volume (0, 5, 5, 5, 5, 5): the capped loop runs zero
iterations, returns the state unchanged, and respects the cap. -/
theorem move2Destination_capped_terminates_witness :
    inDestination (⟨0, 0, 0⟩ : Pt ℝ) (⟨0, 5, 5, 5, 5, 5⟩ : DestVol ℝ) = true ∧
    ((move2Destination Real.sqrt (fun _ => 0) [] 10 1 ⟨0, 5, 5, 5, 5, 5⟩
        ⟨⟨0, 0, 0⟩, [], 0, 0⟩).2 ≤ 100 ∧
      move2Destination Real.sqrt (fun _ => 0) [] 10 1 ⟨0, 5, 5, 5, 5, 5⟩
        ⟨⟨0, 0, 0⟩, [], 0, 0⟩ = (⟨⟨0, 0, 0⟩, [], 0, 0⟩, 0)) := by
  have hin : inDestination (⟨0, 0, 0⟩ : Pt ℝ)
      (⟨0, 5, 5, 5, 5, 5⟩ : DestVol ℝ) = true := by
    rw [inDestination, decide_eq_true_iff]
    norm_num
  have h := move2Destination_capped_terminates (fun _ => 0) [] 10 1
    ⟨0, 5, 5, 5, 5, 5⟩ ⟨⟨0, 0, 0⟩, [], 0, 0⟩
  exact ⟨hin, h.1, h.2.2 hin⟩

end P1906
